import Mathlib

/-!
Verification development for the zayfinds product-image pipeline scripts.

The development shallowly embeds three scripts of the repository:
* the generic image scraper (`fetch-images.mjs`): selector-priority
  extraction, skip logic, checkpoint/resume, sequential batch loop;
* the Weidian image fetcher (`fetch-weidian-images.mjs`): regex-based
  extraction from embedded JSON, URL cleaning, concurrent batch driver,
  id-keyed result merging;
* the deduplication script (`dedupe-products.mjs`).

Network I/O (`fetch`) is modelled by an oracle parameter mapping a product
to the outcome of its per-product processing; HTML parsing by the external
cheerio library is modelled by an abstract parsed-document structure
exposing exactly the queries the source performs.  JavaScript strings are
modelled as Lean `String`s (the inputs involved are plain text), and
JavaScript falsiness of a string is the `== ""` test.
-/

/-- Boolean test that the first list starts with the second list. -/
def hasPfxC : List Char → List Char → Bool
  | _, [] => true
  | [], _ :: _ => false
  | c :: cs, p :: ps => c == p && hasPfxC cs ps

/-- Boolean test that `pat` occurs contiguously inside `hay`. -/
def hasSubC (hay pat : List Char) : Bool :=
  match hay with
  | [] => pat.isEmpty
  | c :: rest => hasPfxC (c :: rest) pat || hasSubC rest pat

/-- Model of JavaScript `String.prototype.includes`. -/
def strContains (s pat : String) : Bool :=
  hasSubC s.toList pat.toList

/-- Model of JavaScript `String.prototype.startsWith`. -/
def strStarts (s pat : String) : Bool :=
  hasPfxC s.toList pat.toList

/-- Model of JavaScript `a || b` for two optional strings, where a present
but empty string is falsy (`undefined` is `none`). -/
def jsOrS : Option String → Option String → Option String
  | some s, b => if s == "" then b else some s
  | none, b => b

/-- Product record as persisted in `data/products.json` and manipulated by
the scripts.  `id` is the numeric sequential id the dedupe script assigns;
`price` is nullable and numeric (an integer carrier suffices: no claim
depends on fractional values); `priceText` is the raw display string;
`imageUrl` is nullable. -/
structure Product where
  id : Nat
  name : String
  price : Option Int
  priceText : String
  category : Option String
  buyUrl : String
  imageUrl : Option String
deriving DecidableEq

/-! ## Generic scraper (`scripts/fetch-images.mjs`) -/

/-- The ordered selector priority list `IMAGE_SELECTORS` of the generic
scraper, verbatim. -/
def IMAGE_SELECTORS : List String :=
  [ ".product-image img",
    ".product-gallery img:first-child",
    ".gallery-wrapper img:first-child",
    ".main-image img",
    ".product-main-image img",
    "img[src*=\"img.alicdn\"]",
    "img[src*=\"weidian\"]",
    "img[src*=\"mulebuy\"]",
    "img[data-src]",
    "img[data-lazy-src]",
    "img[data-original]",
    ".product-detail img:first-child",
    ".item-image img",
    "article img:first-child",
    ".content img:first-child" ]

/-- An `<img>` element as the extractor queries it: the four attributes the
source reads (`src`, `data-src`, `data-lazy-src`, `data-original`), each
possibly absent. -/
structure Img where
  src : Option String
  dataSrc : Option String
  dataLazySrc : Option String
  dataOriginal : Option String
deriving DecidableEq

/-- Abstract parsed HTML document, standing for `cheerio.load(html)`: the
source only ever asks for the first element matching a selector and for the
array of all `<img>` elements, so the model exposes exactly those two
queries. -/
structure Doc where
  select : String → Option Img
  allImages : List Img

/-- Candidate attribute chain of the selector strategy:
`img.attr('src') || img.attr('data-src') || img.attr('data-lazy-src') ||
img.attr('data-original')`. -/
def candidateOf (img : Img) : Option String :=
  jsOrS img.src (jsOrS img.dataSrc (jsOrS img.dataLazySrc img.dataOriginal))

/-- Modelled behaviour of Node's WHATWG `new URL(u).origin` restricted to
the plain `http(s)://host...` URLs this pipeline feeds it: the origin is
the scheme plus the host-and-port part (up to the first `/`, `?` or `#`).
Any string the constructor would reject (no `http(s)://` scheme, empty
host) is modelled as `none`, standing for the constructor throwing. -/
def urlOrigin (u : String) : Option String :=
  let cs := u.toList
  if hasPfxC cs ("https://".toList) then
    let host := (cs.drop 8).takeWhile (fun c => !(c == '/' || c == '?' || c == '#'))
    if host.isEmpty then none else some (String.mk ("https://".toList ++ host))
  else if hasPfxC cs ("http://".toList) then
    let host := (cs.drop 7).takeWhile (fun c => !(c == '/' || c == '?' || c == '#'))
    if host.isEmpty then none else some (String.mk ("http://".toList ++ host))
  else none

/-- Outcome of one selector of the priority loop: return a URL, throw
(the `new URL(baseUrl)` call on a malformed base URL), or fall through to
the next selector. -/
inductive SelStep where
  | ret (u : String)
  | threw
  | next
deriving DecidableEq

/-- One iteration of the selector-priority loop of `extractImageUrl`:
look up the selector, read the candidate attribute chain, reject
placeholder/loading/data-URI/short candidates (falling through), then
normalize protocol-relative and root-relative candidates. -/
def selectorStep (doc : Doc) (baseUrl : String) (sel : String) : SelStep :=
  match doc.select sel with
  | none => .next
  | some img =>
    match candidateOf img with
    | none => .next
    | some c =>
      if c == "" then .next
      else if strContains c "loading" || strContains c "placeholder"
          || strContains c "data:image" || c.length < 10 then .next
      else if strStarts c "//" then .ret ("https:" ++ c)
      else if strStarts c "/" then
        match urlOrigin baseUrl with
        | some origin => .ret (origin ++ c)
        | none => .threw
      else .ret c

/-- The selector-priority loop: first selector that does not fall through
decides the result. -/
def firstStep (doc : Doc) (baseUrl : String) : List String → SelStep
  | [] => .next
  | sel :: rest =>
    match selectorStep doc baseUrl sel with
    | .next => firstStep doc baseUrl rest
    | r => r

/-- Fallback strategy of `extractImageUrl`: scan all `<img>` elements,
take the first whose `src || data-src` passes the blacklist, is not a
data-URI and is longer than 20 characters; only protocol-relative URLs
are normalized here. -/
def fallbackScan : List Img → Option String
  | [] => none
  | img :: rest =>
    match jsOrS img.src img.dataSrc with
    | none => fallbackScan rest
    | some s =>
      if s == "" then fallbackScan rest
      else if strContains s "logo" || strContains s "icon" || strContains s "avatar"
          || strContains s "loading" || strContains s "placeholder"
          || strStarts s "data:" || !(20 < s.length) then fallbackScan rest
      else if strStarts s "//" then some ("https:" ++ s)
      else some s

/-- Result of `extractImageUrl`: a returned value (URL or null), or an
exception escaping the function. -/
inductive ExtractResult where
  | ok (url : Option String)
  | thrown
deriving DecidableEq

/-- `extractImageUrl(html, baseUrl)` of the generic scraper: the selector
priority loop, then the all-images fallback, else null. -/
def extractImageUrl (doc : Doc) (baseUrl : String) : ExtractResult :=
  match firstStep doc baseUrl IMAGE_SELECTORS with
  | .ret u => .ok (some u)
  | .threw => .thrown
  | .next => .ok (fallbackScan doc.allImages)

/-- `processProduct` of the generic scraper: null for a falsy `buyUrl`,
null when the fetch fails (`fetch` is the network oracle yielding the
parsed page, `none` on HTTP/network failure), else extraction with the
`buyUrl` as base URL. -/
def processProductG (fetch : Product → Option Doc) (p : Product) : ExtractResult :=
  if p.buyUrl == "" then .ok none
  else
    match fetch p with
    | none => .ok none
    | some doc => extractImageUrl doc p.buyUrl

/-- Coercion of a non-throwing extraction outcome to the returned value;
a thrown outcome is mapped to null (only used under a no-throw
hypothesis). -/
def okOr : ExtractResult → Option String
  | .ok u => u
  | .thrown => none

/-- Skip test of the main loop: a product is skipped when it already has a
truthy `imageUrl` that does not contain `placeholder` and is not the
placeholder path. -/
def skipProduct (p : Product) : Bool :=
  match p.imageUrl with
  | none => false
  | some s =>
    !(s == "") && !strContains s "placeholder" && !(s == "/images/placeholder-item.png")

/-- Effect of one processed (non-skipped) iteration on a product: the
oracle models `processProduct` (the fetched-and-extracted URL or null),
and the result is written into `imageUrl` in both branches. -/
def stepFn (oracle : Product → Option String) (p : Product) : Product :=
  if skipProduct p then p else { p with imageUrl := oracle p }

/-- The main processing loop of the generic scraper, from index `i`
(exclusive of `endIdx`): skip products with a usable image, otherwise
write the oracle's result into `imageUrl`.  The second component records
the indices for which a fetch was issued.  Progress logging, the
checkpoint writes and the rate-limit delay are side effects without
influence on the resulting array. -/
def runLoop (oracle : Product → Option String) (endIdx : Nat) (i : Nat)
    (ps : List Product) (acc : List Nat) : List Product × List Nat :=
  if i < endIdx then
    match ps[i]? with
    | none => runLoop oracle endIdx (i + 1) ps acc
    | some product =>
      if skipProduct product then runLoop oracle endIdx (i + 1) ps acc
      else runLoop oracle endIdx (i + 1)
        (ps.set i { product with imageUrl := oracle product }) (acc ++ [i])
  else (ps, acc)
termination_by endIdx - i

/-- Checkpoint record: last fully processed index, creation timestamp, and
the partially updated product array. -/
structure Checkpoint where
  lastProcessedIndex : Nat
  timestamp : String
  products : List Product
deriving DecidableEq

/-- `loadCheckpoint`: the checkpoint file slot is `none` when the file does
not exist, `some none` when it exists but its JSON is malformed (the
`JSON.parse` exception is caught and `null` returned), and
`some (some cp)` when it parses. -/
def loadCheckpoint : Option (Option Checkpoint) → Option Checkpoint
  | none => none
  | some parsed => parsed

/-- `main` of the generic scraper: choose the working array and start index
(checkpoint on `--resume` when present, else the catalog file), clamp the
end index to 10 in `--test` mode, and run the loop.  Returns the final
array together with the fetched indices. -/
def mainRun (oracle : Product → Option String) (isTestMode isResumeMode : Bool)
    (checkpointFile : Option (Option Checkpoint)) (fileProducts : List Product) :
    List Product × List Nat :=
  let state :=
    if isResumeMode then
      match loadCheckpoint checkpointFile with
      | some checkpoint => (checkpoint.products, checkpoint.lastProcessedIndex + 1)
      | none => (fileProducts, 0)
    else (fileProducts, 0)
  let endIndex := if isTestMode then min 10 state.1.length else state.1.length
  runLoop oracle endIndex state.2 state.1 []

/-- The generic pipeline composed with the real extractor: the oracle is
`processProduct`, i.e. fetch (modelled by `fetch`) followed by
`extractImageUrl` on the product's `buyUrl`. -/
def runExtractPipeline (fetch : Product → Option Doc) (ps : List Product) :
    List Product × List Nat :=
  mainRun (fun p => okOr (processProductG fetch p)) false false none ps

/-! ## Deduplication script (`scripts/dedupe-products.mjs`) -/

/-- The `products.filter` pass of the dedupe script: keep a product when
its `buyUrl` has not been seen, recording seen `buyUrl`s. -/
def dedupeFilter : List Product → List String → List Product
  | [], _ => []
  | p :: rest, seen =>
    if seen.contains p.buyUrl then dedupeFilter rest seen
    else p :: dedupeFilter rest (p.buyUrl :: seen)

/-- The `deduped.forEach((product, index) => product.id = index + 1)` pass:
sequential ids starting at `n + 1`. -/
def renumberFrom (n : Nat) : List Product → List Product
  | [] => []
  | p :: rest => { p with id := n + 1 } :: renumberFrom (n + 1) rest

/-- The full dedupe script: first-occurrence filter on `buyUrl`, then
dense renumbering of ids from 1. -/
def dedupeProducts (products : List Product) : List Product :=
  renumberFrom 0 (dedupeFilter products [])

/-- Specification-side description of the retained records, transcribed
from the claim's words: for each `buyUrl` value keep exactly the first
record (by original array order) having it, drop every later record
sharing it. -/
def keepFirstByBuyUrl : List Product → List Product
  | [] => []
  | p :: rest => p :: keepFirstByBuyUrl (rest.filter (fun q => !(q.buyUrl == p.buyUrl)))
termination_by l => l.length
decreasing_by
  simp only [List.length_cons]
  exact Nat.lt_succ_of_le (List.length_filter_le _ _)

/-! ## Weidian image fetcher (`scripts/fetch-weidian-images.mjs`)

The extraction strategies of this script are JavaScript regexes over the
raw HTML text.  They are embedded as character-list matchers with the
regexes' first-match (leftmost scan) semantics; greedy character classes
are maximal runs, and alternations try their branches in source order. -/

/-- Model of the characters matched by JavaScript `\s` (and trimmed by
`String.prototype.trim`) that can occur in the inputs at hand; the rarer
Unicode space code points are omitted. -/
def isJsSpace (c : Char) : Bool :=
  c == ' ' || c == '\t' || c == '\n' || c == '\r' ||
  c == Char.ofNat 0x0B || c == Char.ofNat 0x0C || c == Char.ofNat 0xA0 ||
  c == Char.ofNat 0xFEFF

/-- Characters matched by JavaScript `.` without the `s` flag. -/
def isDotChar (c : Char) : Bool :=
  !(c == '\n' || c == '\r' || c == Char.ofNat 0x2028 || c == Char.ofNat 0x2029)

/-- Matcher for the alternation `(?:"|&#34;)`: consume a plain or
HTML-encoded double quote, returning the remainder. -/
def matchQuoteC (l : List Char) : Option (List Char) :=
  if hasPfxC l ("\"".toList) then some (l.drop 1)
  else if hasPfxC l ("&#34;".toList) then some (l.drop 5)
  else none

/-- Character class `[^"&#]` of the embedded-JSON URL captures. -/
def urlBodyChar (c : Char) : Bool :=
  !(c == '"' || c == '&' || c == '#')

/-- Matcher for the capture group `(https?:\/\/[^"&#]+)`: the scheme
followed by the maximal nonempty run of body characters. -/
def captureUrl (l : List Char) : Option (List Char) :=
  if hasPfxC l ("https://".toList) then
    let body := (l.drop 8).takeWhile urlBodyChar
    if body.isEmpty then none else some ("https://".toList ++ body)
  else if hasPfxC l ("http://".toList) then
    let body := (l.drop 7).takeWhile urlBodyChar
    if body.isEmpty then none else some ("http://".toList ++ body)
  else none

/-- Matcher, at the current position, for strategy 1's regex
`(?:"|&#34;)item_head(?:"|&#34;)\s*:\s*(?:"|&#34;)(https?:\/\/[^"&#]+)`,
returning the captured URL. -/
def matchItemHeadAt (l : List Char) : Option (List Char) := do
  let l1 ← matchQuoteC l
  let l2 ← if hasPfxC l1 ("item_head".toList) then some (l1.drop 9) else none
  let l3 ← matchQuoteC l2
  let l4 := l3.dropWhile isJsSpace
  let l5 ← if hasPfxC l4 (":".toList) then some (l4.drop 1) else none
  let l6 := l5.dropWhile isJsSpace
  let l7 ← matchQuoteC l6
  captureUrl l7

/-- Matcher, at the current position, for strategy 2's regex
`(?:"|&#34;)imgs(?:"|&#34;)\s*:\s*\[\s*(?:"|&#34;)(https?:\/\/[^"&#]+)`. -/
def matchImgsAt (l : List Char) : Option (List Char) := do
  let l1 ← matchQuoteC l
  let l2 ← if hasPfxC l1 ("imgs".toList) then some (l1.drop 4) else none
  let l3 ← matchQuoteC l2
  let l4 := l3.dropWhile isJsSpace
  let l5 ← if hasPfxC l4 (":".toList) then some (l4.drop 1) else none
  let l6 := l5.dropWhile isJsSpace
  let l7 ← if hasPfxC l6 ("[".toList) then some (l6.drop 1) else none
  let l8 := l7.dropWhile isJsSpace
  let l9 ← matchQuoteC l8
  captureUrl l9

/-- Leftmost-match scan: try the position matcher at every position from
the left and return its first success. -/
def scanFor (f : List Char → Option (List Char)) : List Char → Option (List Char)
  | [] => f []
  | c :: rest =>
    match f (c :: rest) with
    | some r => some r
    | none => scanFor f rest

/-- First match of the `item_head` regex in the HTML text
(`html.match(...)`, capture group 1). -/
def matchItemHead (s : String) : Option String :=
  (scanFor matchItemHeadAt s.toList).map String.mk

/-- First match of the `imgs` array regex in the HTML text. -/
def matchImgs (s : String) : Option String :=
  (scanFor matchImgsAt s.toList).map String.mk

/-- Search for `pat` skipping only non-`>` characters (the pattern may
start immediately); returns the remainder after the pattern. -/
def seekNoGt0 (pat : List Char) : List Char → Option (List Char)
  | [] => none
  | c :: rest =>
    if hasPfxC (c :: rest) pat then some ((c :: rest).drop pat.length)
    else if c == '>' then none
    else seekNoGt0 pat rest

/-- Matcher for `[^>]+pat`: at least one non-`>` character, then `pat`
reachable without crossing `>`. -/
def seekNoGt1 (pat : List Char) : List Char → Option (List Char)
  | [] => none
  | c :: rest => if c == '>' then none else seekNoGt0 pat rest

/-- Size markers of the preload-link regex
`(?:_750_|_800_|_1000_|_1200_|_1600_)`. -/
def preloadMarkers : List (List Char) :=
  ["_750_", "_800_", "_1000_", "_1200_", "_1600_"].map String.toList

/-- A preload size marker occurs at the current position or later, with at
least one character remaining after it. -/
def hasMarkerFront : List Char → Bool
  | [] => false
  | c :: t =>
    (preloadMarkers.any fun m =>
      hasPfxC (c :: t) m && !((c :: t).drop m.length).isEmpty) || hasMarkerFront t

/-- A preload size marker occurs at offset at least 1, with at least one
character after it (the `[^"]+` runs on both sides are nonempty). -/
def hasMarkerMid (body : List Char) : Bool :=
  match body with
  | [] => false
  | _ :: t => hasMarkerFront t

/-- Matcher, at the current position, for strategy 3's preload-link regex:
`<link`, then `rel="preload"`, `as="image"` and `href="` each found within
the tag (no `>` crossed, each preceded by at least one character), then
the capture `(https?:\/\/[^"]+(?:_750_|_800_|_1000_|_1200_|_1600_)[^"]+)`
closed by `"`.  The greedy backtracking choice among multiple attribute
occurrences inside one pathological tag is modelled as first occurrence. -/
def preloadAt (l : List Char) : Option (List Char) := do
  let r0 ← if hasPfxC l ("<link".toList) then some (l.drop 5) else none
  let r1 ← seekNoGt1 ("rel=\"preload\"".toList) r0
  let r2 ← seekNoGt1 ("as=\"image\"".toList) r1
  let r3 ← seekNoGt1 ("href=\"".toList) r2
  let run := r3.takeWhile (fun c => !(c == '"'))
  let closed := hasPfxC (r3.drop run.length) ("\"".toList)
  let body ←
    if hasPfxC run ("https://".toList) then some (run.drop 8)
    else if hasPfxC run ("http://".toList) then some (run.drop 7)
    else none
  if closed && hasMarkerMid body then some run else none

/-- First match of the preload-link regex in the HTML text. -/
def matchPreload (s : String) : Option String :=
  (scanFor preloadAt s.toList).map String.mk

/-- Case-insensitive list prefix test (the CDN regex carries the `i`
flag). -/
def hasPfxCI : List Char → List Char → Bool
  | _, [] => true
  | [], _ :: _ => false
  | c :: cs, p :: ps => (c.toLower == p.toLower) && hasPfxCI cs ps

/-- Size alternatives of strategy 4's CDN regex
`_(?:750|800|1000|1600|2400|3000)_`. -/
def cdnSizes : List (List Char) :=
  ["750", "800", "1000", "1600", "2400", "3000"].map String.toList

/-- Extension alternation `(jpg|jpeg|png)` (case-insensitive), in source
order; returns the matched length. -/
def extAt (l : List Char) : Option Nat :=
  if hasPfxCI l ("jpg".toList) then some 3
  else if hasPfxCI l ("jpeg".toList) then some 4
  else if hasPfxCI l ("png".toList) then some 3
  else none

/-- Matcher for the CDN regex tail `_(?:750|...)_\d+\.(jpg|jpeg|png)` at
the current position; returns the matched length. -/
def tailPatAt : List Char → Option Nat
  | '_' :: r =>
    cdnSizes.findSome? (fun size =>
      if hasPfxC r size then
        match r.drop size.length with
        | '_' :: r3 =>
          let digits := r3.takeWhile Char.isDigit
          if digits.isEmpty then none
          else
            match r3.drop digits.length with
            | '.' :: r4 => (extAt r4).map (fun k => 1 + size.length + 1 + digits.length + 1 + k)
            | _ => none
        | _ => none
      else none)
  | _ => none

/-- Latest split of the run `r` into a nonempty `[^"'\s]+` part followed by
a CDN tail match (the greedy class prefers the longest body), as a pair of
the split offset and the tail length. -/
def lastTailSplitAux : List Char → Nat → Option (Nat × Nat)
  | [], _ => none
  | c :: t, i =>
    match lastTailSplitAux t (i + 1) with
    | some res => some res
    | none => if 1 ≤ i then (tailPatAt (c :: t)).map (fun k => (i, k)) else none

/-- See `lastTailSplitAux`; the scan starts at offset 0. -/
def lastTailSplit (r : List Char) : Option (Nat × Nat) :=
  lastTailSplitAux r 0

/-- Matcher, at the current position, for strategy 4's CDN regex
`https?:\/\/si\.geilicdn\.com\/[^"'\s]+_(?:750|800|1000|1600|2400|3000)_\d+\.(jpg|jpeg|png)`
(case-insensitive): returns the matched text and the remainder after it. -/
def cdnAt (l : List Char) : Option (List Char × List Char) :=
  let pfxLen : Option Nat :=
    if hasPfxCI l ("https://si.geilicdn.com/".toList) then some 24
    else if hasPfxCI l ("http://si.geilicdn.com/".toList) then some 23
    else none
  match pfxLen with
  | none => none
  | some n =>
    let r := (l.drop n).takeWhile (fun c => !(c == '"' || c == '\'' || isJsSpace c))
    match lastTailSplit r with
    | none => none
    | some (i, k) => some (l.take n ++ r.take (i + k), l.drop (n + i + k))

/-- Global scan of the CDN regex (`html.match(/.../gi)`): leftmost,
non-overlapping matches.  The fuel equals the input length; every step
advances at least one character, so it is never exhausted. -/
def cdnScanFuel : Nat → List Char → List (List Char)
  | 0, _ => []
  | _ + 1, [] => []
  | fuel + 1, c :: rest =>
    match cdnAt (c :: rest) with
    | some (m, remainder) => m :: cdnScanFuel fuel remainder
    | none => cdnScanFuel fuel rest

/-- All matches of the CDN regex in the HTML text. -/
def cdnMatches (html : String) : List String :=
  (cdnScanFuel html.toList.length html.toList).map String.mk

/-- Small-size alternatives of the icon-rejection regex
`_(?:74|96|52|45|42|110)_\d+`. -/
def smallSizes : List (List Char) :=
  ["74", "96", "52", "45", "42", "110"].map String.toList

/-- The icon-rejection regex matches at the current position. -/
def smallSizeAt : List Char → Bool
  | '_' :: r =>
    smallSizes.any (fun size =>
      hasPfxC r size &&
        match r.drop size.length with
        | '_' :: d :: _ => d.isDigit
        | _ => false)
  | _ => false

/-- The icon-rejection regex matches somewhere in the URL
(`smallImagePattern.test(url)`). -/
def hasSmallSize : List Char → Bool
  | [] => false
  | c :: rest => smallSizeAt (c :: rest) || hasSmallSize rest

/-- Blacklisted substrings of `isValidProductImage`. -/
def weidianBlacklist : List String :=
  ["poseidon-", "hz_img_", "default_headimg", "favicon", "logo",
   "unadjust_74", "unadjust_96"]

/-- `isValidProductImage`: reject icon-sized markers and blacklisted
asset-name fragments. -/
def isValidProductImage (url : String) : Bool :=
  !hasSmallSize url.toList && !(weidianBlacklist.any fun pat => strContains url pat)

/-- Replacement `\.webp(\?.*)?$ → ""` matches at the current position:
literal `.webp`, then either the end of the string or `?` followed by
newline-free text up to the end. -/
def webpTailAt (l : List Char) : Bool :=
  hasPfxC l (".webp".toList) &&
    (let r := l.drop 5
     r.isEmpty || (hasPfxC r ("?".toList) && (r.drop 1).all isDotChar))

/-- Apply the replacement `\.webp(\?.*)?$ → ""`: cut at the leftmost
position where it matches. -/
def dropWebpTail : List Char → List Char
  | [] => []
  | c :: rest => if webpTailAt (c :: rest) then [] else c :: dropWebpTail rest

/-- Apply a replacement `pat.*$ → ""`: cut at the leftmost occurrence of
`pat` from which the end of the string is reachable by `.*`. -/
def cutAtPat (pat : List Char) : List Char → List Char
  | [] => []
  | c :: rest =>
    if hasPfxC (c :: rest) pat && ((c :: rest).drop pat.length).all isDotChar then []
    else c :: cutAtPat pat rest

/-- JavaScript `String.prototype.trim` on the modelled space set. -/
def trimChars (l : List Char) : List Char :=
  ((l.dropWhile isJsSpace).reverse.dropWhile isJsSpace).reverse

/-- `cleanImageUrl`: strip a trailing `.webp` (with optional query), then
query parameters, then HTML-entity and quote artifacts, then trim. -/
def cleanImageUrl (url : String) : String :=
  String.mk (trimChars (cutAtPat ("\"".toList)
    (cutAtPat ("&#34;".toList) (cutAtPat ("?".toList) (dropWebpTail url.toList)))))

/-- Strategy 4 of `parseWeidianImage`: first valid CDN match, cleaned. -/
def weidianStrategy4 (html : String) : Option String :=
  (cdnMatches html).findSome? fun u =>
    if isValidProductImage u then some (cleanImageUrl u) else none

/-- Strategy 3 of `parseWeidianImage`: the preload-link match when valid,
else fall through to strategy 4. -/
def weidianStrategy3 (html : String) : Option String :=
  match matchPreload html with
  | some u => if isValidProductImage u then some (cleanImageUrl u) else weidianStrategy4 html
  | none => weidianStrategy4 html

/-- Strategy 2 of `parseWeidianImage`: the `imgs` array match when valid,
else fall through to strategy 3. -/
def weidianStrategy2 (html : String) : Option String :=
  match matchImgs html with
  | some u => if isValidProductImage u then some (cleanImageUrl u) else weidianStrategy3 html
  | none => weidianStrategy3 html

/-- `parseWeidianImage`: the `item_head` match when valid, else the
fallback strategies in order. -/
def parseWeidianImage (html : String) : Option String :=
  match matchItemHead html with
  | some u => if isValidProductImage u then some (cleanImageUrl u) else weidianStrategy2 html
  | none => weidianStrategy2 html

/-- JavaScript `Map.set` on an id-keyed result map, modelled as function
update (the map is only ever read back through `get`). -/
def setResult (m : Nat → Option String) (k : Nat) (v : String) : Nat → Option String :=
  fun k' => if k' = k then some v else m k'

/-- Recording of one per-product outcome in `processBatch`: only truthy
image URLs are stored (`if (result.imageUrl) results.set(...)`). -/
def recordResult (m : Nat → Option String) : Nat × Option String → Nat → Option String
  | (k, some u) => if u == "" then m else setResult m k u
  | (_, none) => m

/-- `processBatch`: process the products in chunks of `concurrency`,
joining each chunk and recording its results in order.  The oracle models
`processProduct` (Weidian id extraction, fetch and parse); the inter-chunk
delay is a pure side effect.  The source always passes concurrency 5; a
zero concurrency (which would not terminate in the source) returns the
accumulated results. -/
def processBatch (oracle : Product → Option String) (concurrency : Nat)
    (l : List Product) (results : Nat → Option String) : Nat → Option String :=
  match l with
  | [] => results
  | p :: rest =>
    if concurrency = 0 then results
    else
      processBatch oracle concurrency ((p :: rest).drop concurrency)
        ((((p :: rest).take concurrency).map (fun q => (q.id, oracle q))).foldl
          recordResult results)
termination_by l.length
decreasing_by
  simp only [List.length_drop, List.length_cons]
  omega

/-- The placeholder sentinel path of the Weidian fetcher. -/
def DEFAULT_IMAGE_PLACEHOLDER : String := "/images/placeholder-item.png"

/-- Filter predicate of the Weidian fetcher: a product needs an image when
its `imageUrl` is falsy or the placeholder path. -/
def needsImage (p : Product) : Bool :=
  match p.imageUrl with
  | none => true
  | some s => s == "" || s == DEFAULT_IMAGE_PLACEHOLDER

/-- JavaScript `Array.prototype.slice(start, end?)` on product lists (as
used with the nonnegative indices of the CLI). -/
def sliceJs (l : List Product) (startIdx : Nat) (endIdx : Option Nat) : List Product :=
  match endIdx with
  | none => l.drop startIdx
  | some e => (l.take e).drop startIdx

/-- Final update loop of the Weidian fetcher's `main`: overwrite
`imageUrl` only for products whose id has a truthy result in the map. -/
def updateProducts (products : List Product) (results : Nat → Option String) : List Product :=
  products.map fun p =>
    match results p.id with
    | some u => if u == "" then p else { p with imageUrl := some u }
    | none => p

/-- `main` of the Weidian fetcher: filter to products needing images,
slice the requested range, process the batch, and merge the results back
by product id. -/
def weidianMain (oracle : Product → Option String) (startIndex : Nat)
    (endIndex : Option Nat) (products : List Product) : List Product :=
  updateProducts products
    (processBatch oracle 5 (sliceJs (products.filter needsImage) startIndex endIndex)
      (fun _ => none))

/-! ## Characterization of the generic main loop -/

/-- The loop never changes the length of the product array. -/
theorem runLoop_fst_length_aux (oracle : Product → Option String) :
    ∀ (k e i : Nat) (ps : List Product) (acc : List Nat), e ≤ i + k →
      ((runLoop oracle e i ps acc).1).length = ps.length := by
  intro k
  induction k with
  | zero =>
    intro e i ps acc h
    rw [runLoop, if_neg (by omega)]
  | succ k ih =>
    intro e i ps acc h
    rw [runLoop]
    by_cases hie : i < e
    · rw [if_pos hie]
      split
    -- fetch failed / index absent: recurse unchanged
      · exact ih e (i + 1) ps acc (by omega)
      · rename_i product _
        by_cases hskip : skipProduct product
        · rw [if_pos hskip]
          exact ih e (i + 1) ps acc (by omega)
        · rw [if_neg hskip]
          rw [ih e (i + 1) _ _ (by omega)]
          exact List.length_set ..
    · rw [if_neg hie]

/-- Length preservation, stated without fuel. -/
theorem runLoop_fst_length (oracle : Product → Option String) (e i : Nat)
    (ps : List Product) (acc : List Nat) :
    ((runLoop oracle e i ps acc).1).length = ps.length :=
  runLoop_fst_length_aux oracle e e i ps acc (by omega)

/-- Pointwise characterization of the resulting array: entries in the
processed range `[i, e)` are the per-item step applied to the original
entry, all other entries are untouched. -/
theorem runLoop_fst_getElem_aux (oracle : Product → Option String) :
    ∀ (k e i : Nat) (ps : List Product) (acc : List Nat), e ≤ i + k → e ≤ ps.length →
      ∀ j, ((runLoop oracle e i ps acc).1)[j]? =
        if i ≤ j ∧ j < e then (ps[j]?).map (stepFn oracle) else ps[j]? := by
  intro k
  induction k with
  | zero =>
    intro e i ps acc h _ j
    rw [runLoop, if_neg (by omega), if_neg (by omega)]
  | succ k ih =>
    intro e i ps acc h he j
    rw [runLoop]
    by_cases hie : i < e
    · rw [if_pos hie]
      split
      · rename_i hps
        have := List.getElem?_eq_none_iff.mp hps
        omega
      · rename_i product hps
        by_cases hskip : skipProduct product
        · rw [if_pos hskip]
          rw [ih e (i + 1) ps acc (by omega) he j]
          by_cases hj : j = i
          · subst hj
            rw [if_neg (by omega), if_pos ⟨Nat.le_refl j, hie⟩, hps]
            simp [stepFn, hskip]
          · by_cases hcond : i + 1 ≤ j ∧ j < e
            · rw [if_pos hcond, if_pos (by omega)]
            · rw [if_neg hcond, if_neg (by omega)]
        · rw [if_neg hskip]
          have hlen : i < ps.length := by omega
          rw [ih e (i + 1) _ _ (by omega) (by rw [List.length_set]; exact he) j]
          by_cases hj : j = i
          · subst hj
            rw [if_neg (by omega), List.getElem?_set_self hlen,
              if_pos ⟨Nat.le_refl j, hie⟩, hps]
            simp [stepFn, hskip]
          · rw [List.getElem?_set_ne (fun h' => hj h'.symm)]
            by_cases hcond : i + 1 ≤ j ∧ j < e
            · rw [if_pos hcond, if_pos (by omega)]
            · rw [if_neg hcond, if_neg (by omega)]
    · rw [if_neg hie, if_neg (by omega)]

/-- Pointwise characterization, stated without fuel. -/
theorem runLoop_fst_getElem (oracle : Product → Option String) (e i : Nat)
    (ps : List Product) (acc : List Nat) (he : e ≤ ps.length) (j : Nat) :
    ((runLoop oracle e i ps acc).1)[j]? =
      if i ≤ j ∧ j < e then (ps[j]?).map (stepFn oracle) else ps[j]? :=
  runLoop_fst_getElem_aux oracle e e i ps acc (by omega) he j

/-- Characterization of the fetched indices: exactly the accumulator plus
the non-skipped indices of the processed range. -/
theorem runLoop_snd_mem_aux (oracle : Product → Option String) :
    ∀ (k e i : Nat) (ps : List Product) (acc : List Nat), e ≤ i + k →
      ∀ n, n ∈ (runLoop oracle e i ps acc).2 ↔
        n ∈ acc ∨ (i ≤ n ∧ n < e ∧ ∃ p, ps[n]? = some p ∧ skipProduct p = false) := by
  intro k
  induction k with
  | zero =>
    intro e i ps acc h n
    rw [runLoop, if_neg (by omega)]
    constructor
    · exact fun hn => Or.inl hn
    · rintro (hn | ⟨h1, h2, _⟩)
      · exact hn
      · omega
  | succ k ih =>
    intro e i ps acc h n
    rw [runLoop]
    by_cases hie : i < e
    · rw [if_pos hie]
      split
      · rename_i hps
        rw [ih e (i + 1) ps acc (by omega) n]
        constructor
        · rintro (hn | ⟨h1, h2, hex⟩)
          · exact Or.inl hn
          · exact Or.inr ⟨by omega, h2, hex⟩
        · rintro (hn | ⟨h1, h2, p, hp, hsk⟩)
          · exact Or.inl hn
          · rcases Nat.eq_or_lt_of_le h1 with heq | hlt
            · subst heq
              rw [hps] at hp
              exact absurd hp (by simp)
            · exact Or.inr ⟨by omega, h2, p, hp, hsk⟩
      · rename_i product hps
        by_cases hskip : skipProduct product
        · rw [if_pos hskip]
          rw [ih e (i + 1) ps acc (by omega) n]
          constructor
          · rintro (hn | ⟨h1, h2, hex⟩)
            · exact Or.inl hn
            · exact Or.inr ⟨by omega, h2, hex⟩
          · rintro (hn | ⟨h1, h2, p, hp, hsk⟩)
            · exact Or.inl hn
            · rcases Nat.eq_or_lt_of_le h1 with heq | hlt
              · subst heq
                rw [hps] at hp
                cases hp
                rw [hskip] at hsk
                cases hsk
              · exact Or.inr ⟨by omega, h2, p, hp, hsk⟩
        · rw [if_neg hskip]
          rw [ih e (i + 1) _ _ (by omega) n]
          constructor
          · rintro (hn | ⟨h1, h2, p, hp, hsk⟩)
            · rcases List.mem_append.mp hn with hn | hn
              · exact Or.inl hn
              · have heq : n = i := List.mem_singleton.mp hn
                subst heq
                exact Or.inr ⟨Nat.le_refl n, hie, product, hps,
                  Bool.eq_false_iff.mpr hskip⟩
            · rw [List.getElem?_set_ne (by omega)] at hp
              exact Or.inr ⟨by omega, h2, p, hp, hsk⟩
          · rintro (hn | ⟨h1, h2, p, hp, hsk⟩)
            · exact Or.inl (List.mem_append.mpr (Or.inl hn))
            · rcases Nat.eq_or_lt_of_le h1 with heq | hlt
              · subst heq
                exact Or.inl (List.mem_append.mpr (Or.inr (List.mem_singleton.mpr rfl)))
              · refine Or.inr ⟨by omega, h2, p, ?_, hsk⟩
                rw [List.getElem?_set_ne (by omega)]
                exact hp
    · rw [if_neg hie]
      constructor
      · exact fun hn => Or.inl hn
      · rintro (hn | ⟨h1, h2, _⟩)
        · exact hn
        · omega

/-- Fetched-index characterization, stated without fuel. -/
theorem runLoop_snd_mem (oracle : Product → Option String) (e i : Nat)
    (ps : List Product) (acc : List Nat) (n : Nat) :
    n ∈ (runLoop oracle e i ps acc).2 ↔
      n ∈ acc ∨ (i ≤ n ∧ n < e ∧ ∃ p, ps[n]? = some p ∧ skipProduct p = false) :=
  runLoop_snd_mem_aux oracle e e i ps acc (by omega) n

/-! ## Claim theorems: generic pipeline driver -/

/-- C1: on `--resume` with a checkpoint at `lastProcessedIndex = 99` over a
500-product catalog, the checkpoint's array is the working array, fetches
happen only at indices 100..499, entries 0..99 of the final catalog are the
checkpoint's entries 0..99 unchanged, and entries 100..499 are the per-item
step applied to the checkpoint's entries. -/
theorem checkpoint_resume_correct (oracle : Product → Option String) (cp : Checkpoint)
    (fileProducts : List Product)
    (h99 : cp.lastProcessedIndex = 99) (h500 : cp.products.length = 500) :
    ((mainRun oracle false true (some (some cp)) fileProducts).1).length = 500
    ∧ (∀ j, j < 100 →
        ((mainRun oracle false true (some (some cp)) fileProducts).1)[j]? = cp.products[j]?)
    ∧ (∀ n, n ∈ (mainRun oracle false true (some (some cp)) fileProducts).2 →
        100 ≤ n ∧ n < 500)
    ∧ (∀ j, 100 ≤ j → j < 500 →
        ((mainRun oracle false true (some (some cp)) fileProducts).1)[j]?
          = (cp.products[j]?).map (stepFn oracle)) := by
  have hmain : mainRun oracle false true (some (some cp)) fileProducts
      = runLoop oracle 500 100 cp.products [] := by
    simp [mainRun, loadCheckpoint, h99, h500]
  refine ⟨?_, ?_, ?_, ?_⟩
  · rw [hmain, runLoop_fst_length]
    exact h500
  · intro j hj
    rw [hmain, runLoop_fst_getElem oracle 500 100 cp.products [] (by omega) j,
      if_neg (by omega)]
  · intro n hn
    rw [hmain] at hn
    rcases (runLoop_snd_mem oracle 500 100 cp.products [] n).mp hn with h | ⟨h1, h2, _⟩
    · simp at h
    · exact ⟨h1, h2⟩
  · intro j hj1 hj2
    rw [hmain, runLoop_fst_getElem oracle 500 100 cp.products [] (by omega) j,
      if_pos ⟨hj1, hj2⟩]

/-- Sample catalog record used by concrete witnesses. -/
def sampleProduct : Product :=
  ⟨1, "sample", none, "$0", none, "https://mulebuy.com/item?id=1", none⟩

/-- Sample checkpoint over a 500-product catalog. -/
def sampleCheckpoint : Checkpoint :=
  ⟨99, "2026-01-01T00:00:00.000Z", List.replicate 500 sampleProduct⟩

/-- Witness for C1 at a concrete checkpoint and oracle. -/
theorem checkpoint_resume_correct_witness :
    sampleCheckpoint.lastProcessedIndex = 99
    ∧ sampleCheckpoint.products.length = 500
    ∧ (((mainRun (fun _ => none) false true (some (some sampleCheckpoint)) []).1).length = 500
      ∧ (∀ j, j < 100 →
          ((mainRun (fun _ => none) false true (some (some sampleCheckpoint)) []).1)[j]?
            = sampleCheckpoint.products[j]?)
      ∧ (∀ n, n ∈ (mainRun (fun _ => none) false true (some (some sampleCheckpoint)) []).2 →
          100 ≤ n ∧ n < 500)
      ∧ (∀ j, 100 ≤ j → j < 500 →
          ((mainRun (fun _ => none) false true (some (some sampleCheckpoint)) []).1)[j]?
            = (sampleCheckpoint.products[j]?).map (stepFn (fun _ => none)))) :=
  have hlen : sampleCheckpoint.products.length = 500 := by
    show (List.replicate 500 sampleProduct).length = 500
    rw [List.length_replicate]
  ⟨rfl, hlen,
    checkpoint_resume_correct (fun _ => none) sampleCheckpoint [] rfl hlen⟩

/-- C2: a default run preserves the catalog's length and, at every index,
every field of the record except `imageUrl` (in particular the
index-to-id correspondence). -/
theorem pipeline_preserves_records (oracle : Product → Option String) (ps : List Product)
    (j : Nat) (p : Product) (hj : ps[j]? = some p) :
    ((mainRun oracle false false none ps).1).length = ps.length
    ∧ ∃ q, ((mainRun oracle false false none ps).1)[j]? = some q
        ∧ q.id = p.id ∧ q.name = p.name ∧ q.price = p.price ∧ q.priceText = p.priceText
        ∧ q.category = p.category ∧ q.buyUrl = p.buyUrl := by
  have hmain : mainRun oracle false false none ps = runLoop oracle ps.length 0 ps [] := by
    simp [mainRun]
  have hlen : j < ps.length := by
    rcases List.getElem?_eq_some_iff.mp hj with ⟨h, _⟩
    exact h
  constructor
  · rw [hmain, runLoop_fst_length]
  · rw [hmain, runLoop_fst_getElem oracle ps.length 0 ps [] (Nat.le_refl _) j,
      if_pos ⟨Nat.zero_le j, hlen⟩, hj]
    refine ⟨stepFn oracle p, rfl, ?_⟩
    unfold stepFn
    by_cases hskip : skipProduct p
    · rw [if_pos hskip]
      exact ⟨rfl, rfl, rfl, rfl, rfl, rfl⟩
    · rw [if_neg hskip]
      exact ⟨rfl, rfl, rfl, rfl, rfl, rfl⟩

/-- Witness for C2 on a one-record catalog. -/
theorem pipeline_preserves_records_witness :
    [sampleProduct][0]? = some sampleProduct
    ∧ (((mainRun (fun _ => none) false false none [sampleProduct]).1).length
        = [sampleProduct].length
      ∧ ∃ q, ((mainRun (fun _ => none) false false none [sampleProduct]).1)[0]? = some q
          ∧ q.id = sampleProduct.id ∧ q.name = sampleProduct.name
          ∧ q.price = sampleProduct.price ∧ q.priceText = sampleProduct.priceText
          ∧ q.category = sampleProduct.category ∧ q.buyUrl = sampleProduct.buyUrl) :=
  ⟨rfl, pipeline_preserves_records (fun _ => none) [sampleProduct] 0 sampleProduct rfl⟩

/-- C7: with an existing but malformed checkpoint file, a `--resume` run is
the same function of oracle and catalog as a clean run: the checkpoint is
discarded, the catalog file is the working array and processing starts at
index 0. -/
theorem malformed_checkpoint_clean_run (oracle : Product → Option String) (isTest : Bool)
    (fileProducts : List Product) :
    mainRun oracle isTest true (some none) fileProducts
      = mainRun oracle isTest false none fileProducts := rfl

/-- C4 (amended) : a product whose `imageUrl` is a non-null, non-empty
string not containing `placeholder` is skipped: its record is unchanged by
a run and no fetch is issued for its index. -/
theorem skip_logic_noop (oracle : Product → Option String) (ps : List Product)
    (j : Nat) (p : Product) (s : String)
    (hj : ps[j]? = some p) (him : p.imageUrl = some s) (hne : s ≠ "")
    (hpl : strContains s "placeholder" = false) :
    ((mainRun oracle false false none ps).1)[j]? = some p
    ∧ j ∉ (mainRun oracle false false none ps).2 := by
  have h1 : (s == "") = false := beq_eq_false_iff_ne.mpr hne
  have h2 : (s == "/images/placeholder-item.png") = false := by
    rw [beq_eq_false_iff_ne]
    intro heq
    rw [heq] at hpl
    exact absurd hpl (by decide)
  have hskip : skipProduct p = true := by
    simp only [skipProduct, him, h1, hpl, h2]
    rfl
  have hmain : mainRun oracle false false none ps = runLoop oracle ps.length 0 ps [] := by
    simp [mainRun]
  have hlen : j < ps.length := by
    rcases List.getElem?_eq_some_iff.mp hj with ⟨h, _⟩
    exact h
  constructor
  · rw [hmain, runLoop_fst_getElem oracle ps.length 0 ps [] (Nat.le_refl _) j,
      if_pos ⟨Nat.zero_le j, hlen⟩, hj]
    simp [stepFn, hskip]
  · rw [hmain]
    intro hmem
    rcases (runLoop_snd_mem oracle ps.length 0 ps [] j).mp hmem with h | ⟨_, _, q, hq, hsk⟩
    · simp at h
    · rw [hj] at hq
      cases hq
      rw [hskip] at hsk
      cases hsk

/-- Product with a present but skipped `imageUrl`, for the C4 witness. -/
def keptProduct : Product :=
  ⟨2, "kept", some 12, "$12", some "tops", "https://mulebuy.com/item?id=2",
    some "https://img.alicdn.com/kept-image.jpg"⟩

/-- Witness for C4 (amended) on a one-record catalog. -/
theorem skip_logic_noop_witness :
    [keptProduct][0]? = some keptProduct
    ∧ keptProduct.imageUrl = some "https://img.alicdn.com/kept-image.jpg"
    ∧ "https://img.alicdn.com/kept-image.jpg" ≠ ""
    ∧ strContains "https://img.alicdn.com/kept-image.jpg" "placeholder" = false
    ∧ (((mainRun (fun _ => some "https://other.example.com/x.jpg") false false none
          [keptProduct]).1)[0]? = some keptProduct
      ∧ 0 ∉ (mainRun (fun _ => some "https://other.example.com/x.jpg") false false none
          [keptProduct]).2) :=
  ⟨rfl, rfl, by decide, by decide,
    skip_logic_noop (fun _ => some "https://other.example.com/x.jpg") [keptProduct] 0
      keptProduct "https://img.alicdn.com/kept-image.jpg" rfl rfl (by decide) (by decide)⟩

/-- Catalog record whose `imageUrl` is the empty string: a non-null string
that is not a placeholder value, yet not skipped. -/
def emptyImageProduct : Product :=
  ⟨1, "item", none, "$1", none, "https://mulebuy.com/item?id=1", some ""⟩

/-- Counterexample to C4 as stated: `imageUrl` is the non-null string `""`,
which is not a placeholder value, yet the run issues a fetch for the
product (index 0 appears in the fetch list) and overwrites `imageUrl`. -/
theorem skip_logic_counterexample :
    emptyImageProduct.imageUrl = some ""
    ∧ strContains "" "placeholder" = false
    ∧ (mainRun (fun _ => some "https://img.example.com/found-image-1.jpg") false false none
        [emptyImageProduct]).2 = [0]
    ∧ (mainRun (fun _ => some "https://img.example.com/found-image-1.jpg") false false none
        [emptyImageProduct]).1
      = [{ emptyImageProduct with imageUrl := some "https://img.example.com/found-image-1.jpg" }] := by
  refine ⟨rfl, by decide, ?_, ?_⟩
  · simp only [mainRun]
    rw [runLoop]
    norm_num
    rw [if_neg (by decide)]
    rw [runLoop]
    norm_num
  · simp only [mainRun]
    rw [runLoop]
    norm_num
    rw [if_neg (by decide)]
    rw [runLoop]
    norm_num

/-- With a base URL the URL constructor accepts, no selector iteration can
throw. -/
theorem selectorStep_no_throw (doc : Doc) (baseUrl : String) (sel : String) (o : String)
    (ho : urlOrigin baseUrl = some o) : selectorStep doc baseUrl sel ≠ SelStep.threw := by
  unfold selectorStep
  split
  · simp
  · split
    · simp
    · split
      · simp
      · split
        · simp
        · split
          · simp
          · split
            · simp [ho]
            · simp

/-- With a well-formed base URL the selector loop never throws. -/
theorem firstStep_no_throw (doc : Doc) (baseUrl : String) (o : String)
    (ho : urlOrigin baseUrl = some o) (sels : List String) :
    firstStep doc baseUrl sels ≠ SelStep.threw := by
  induction sels with
  | nil => simp [firstStep]
  | cons sel rest ih =>
    unfold firstStep
    cases hstep : selectorStep doc baseUrl sel with
    | ret u => simp
    | threw => exact absurd hstep (selectorStep_no_throw doc baseUrl sel o ho)
    | next => simpa using ih

/-- Any URL returned by a selector iteration is at least 10 characters
long (the accepted candidate is, and normalization only prepends). -/
theorem selectorStep_ret_length (doc : Doc) (baseUrl : String) (sel : String) (u : String) :
    selectorStep doc baseUrl sel = SelStep.ret u → 10 ≤ u.length := by
  intro h
  unfold selectorStep at h
  split at h
  · simp at h
  · split at h
    · simp at h
    · rename_i c hceq
      split at h
      · simp at h
      · split at h
        · simp at h
        · rename_i hfilt
          have hc : 10 ≤ c.length := by
            simp only [Bool.or_eq_true, not_or] at hfilt
            have h4 := hfilt.2
            simp only [decide_eq_true_eq] at h4
            omega
          split at h
          · injection h with h
            rw [← h, String.length_append]
            omega
          · split at h
            · split at h
              · injection h with h
                rw [← h, String.length_append]
                omega
              · simp at h
            · injection h with h
              rw [← h]
              exact hc

/-- Any URL returned by the fallback strategy is longer than 20
characters. -/
theorem fallbackScan_some_length (imgs : List Img) (u : String) :
    fallbackScan imgs = some u → 20 < u.length := by
  induction imgs with
  | nil => intro h; simp [fallbackScan] at h
  | cons img rest ih =>
    intro h
    unfold fallbackScan at h
    split at h
    · exact ih h
    · rename_i s hs
      split at h
      · exact ih h
      · split at h
        · exact ih h
        · rename_i hfilt
          have hlen : 20 < s.length := by
            by_cases hb : 20 < s.length
            · exact hb
            · exfalso
              apply hfilt
              have hd : (!decide (20 < s.length)) = true := by
                rw [decide_eq_false hb]
                rfl
              simp [hd]
          split at h
          · injection h with h
            rw [← h, String.length_append]
            omega
          · injection h with h
            rw [← h]
            exact hlen

/-- Any URL returned by the selector loop is at least 10 characters
long. -/
theorem firstStep_ret_length (doc : Doc) (baseUrl : String) (sels : List String) (u : String) :
    firstStep doc baseUrl sels = SelStep.ret u → 10 ≤ u.length := by
  induction sels with
  | nil => intro h; simp [firstStep] at h
  | cons sel rest ih =>
    intro h
    unfold firstStep at h
    cases hstep : selectorStep doc baseUrl sel with
    | ret v =>
      rw [hstep] at h
      simp only [] at h
      exact selectorStep_ret_length doc baseUrl sel u (hstep.trans h)
    | threw => rw [hstep] at h; simp at h
    | next => rw [hstep] at h; exact ih h

/-- Any URL returned by `extractImageUrl` is at least 10 characters
long. -/
theorem extract_ok_some_length (doc : Doc) (baseUrl : String) (u : String) :
    extractImageUrl doc baseUrl = ExtractResult.ok (some u) → 10 ≤ u.length := by
  intro h
  unfold extractImageUrl at h
  split at h
  · rename_i v hv
    injection h with h
    injection h with h
    subst h
    exact firstStep_ret_length doc baseUrl IMAGE_SELECTORS v hv
  · simp at h
  · injection h with h
    have := fallbackScan_some_length doc.allImages u h
    omega

/-- Any URL returned by `processProduct` is at least 10 characters
long. -/
theorem processProductG_ok_some_length (fetch : Product → Option Doc) (p : Product) (u : String) :
    processProductG fetch p = ExtractResult.ok (some u) → 10 ≤ u.length := by
  intro h
  unfold processProductG at h
  split at h
  · simp at h
  · split at h
    · simp at h
    · rename_i doc hdoc
      exact extract_ok_some_length doc p.buyUrl u h

/-- C5 (amended): for every parsed document and every base URL that the
URL constructor accepts, `extractImageUrl` returns normally with a string
or null; parse anomalies fall through to the next strategy.  (With a
malformed base URL a root-relative selector candidate throws, see the
counterexample.) -/
theorem extract_never_throws_wellformed_base (doc : Doc) (baseUrl : String) (o : String)
    (ho : urlOrigin baseUrl = some o) :
    ∃ r, extractImageUrl doc baseUrl = ExtractResult.ok r := by
  cases hfs : firstStep doc baseUrl IMAGE_SELECTORS with
  | ret u => exact ⟨some u, by simp [extractImageUrl, hfs]⟩
  | threw => exact absurd hfs (firstStep_no_throw doc baseUrl o ho IMAGE_SELECTORS)
  | next => exact ⟨fallbackScan doc.allImages, by simp [extractImageUrl, hfs]⟩

def plainDoc : Doc := ⟨fun _ => none, []⟩

/-- Witness for C5 (amended) at a concrete document and base URL. -/
theorem extract_never_throws_wellformed_base_witness :
    urlOrigin "https://shop.example.com/item?id=1" = some "https://shop.example.com"
    ∧ ∃ r, extractImageUrl plainDoc "https://shop.example.com/item?id=1" = ExtractResult.ok r :=
  ⟨by decide,
    extract_never_throws_wellformed_base plainDoc "https://shop.example.com/item?id=1"
      "https://shop.example.com" (by decide)⟩

/-- Document whose first selector yields a root-relative candidate,
forcing `new URL(baseUrl)` to be evaluated. -/
def throwDoc : Doc :=
  ⟨fun s => if s == ".product-image img" then some ⟨some "/0123456789", none, none, none⟩
    else none, []⟩

/-- Counterexample to C5 as stated: on this document and the base URL
`"not a url"` (which the URL constructor rejects), `extractImageUrl`
throws instead of returning a string or null. -/
theorem extract_throws_counterexample :
    extractImageUrl throwDoc "not a url" = ExtractResult.thrown := by decide

/-- C3 (amended): after a full run driven by the real extractor (assuming
no extraction throws), every product's `imageUrl` is either null, or a
nonempty extracted string of length at least 10, or the product is
untouched (skipped) and keeps its prior nonempty `imageUrl`.  Extracted
strings need not be absolute URLs (see the counterexample). -/
theorem run_null_safety_amended (fetch : Product → Option Doc) (ps : List Product) (j : Nat)
    (q : Product)
    (hok : ∀ p ∈ ps, processProductG fetch p ≠ ExtractResult.thrown)
    (hj : ((runExtractPipeline fetch ps).1)[j]? = some q) :
    q.imageUrl = none
    ∨ ∃ s, q.imageUrl = some s ∧ s ≠ "" ∧ (10 ≤ s.length ∨ ps[j]? = some q) := by
  have hmain : runExtractPipeline fetch ps
      = runLoop (fun p => okOr (processProductG fetch p)) ps.length 0 ps [] := by
    simp [runExtractPipeline, mainRun]
  rw [hmain, runLoop_fst_getElem (fun p => okOr (processProductG fetch p)) ps.length 0 ps []
    (Nat.le_refl _) j] at hj
  by_cases hcond : 0 ≤ j ∧ j < ps.length
  · rw [if_pos hcond] at hj
    cases hp : ps[j]? with
    | none => rw [hp] at hj; simp at hj
    | some p =>
      rw [hp] at hj
      simp only [Option.map_some'] at hj
      injection hj with hj
      unfold stepFn at hj
      by_cases hskip : skipProduct p
      · rw [if_pos hskip] at hj
        subst hj
        cases him : p.imageUrl with
        | none => simp [skipProduct, him] at hskip
        | some s =>
          right
          refine ⟨s, rfl, fun heq => ?_, Or.inr rfl⟩
          rw [heq] at him
          have hfalse : skipProduct p = false := by simp [skipProduct, him]
          rw [hfalse] at hskip
          cases hskip
      · rw [if_neg hskip] at hj
        subst hj
        have hpmem : p ∈ ps := List.getElem?_mem hp
        cases hres : processProductG fetch p with
        | thrown => exact absurd hres (hok p hpmem)
        | ok r =>
          cases r with
          | none =>
            left
            simp [hres, okOr]
          | some u =>
            right
            refine ⟨u, by simp [hres, okOr], fun heq => ?_,
              Or.inl (processProductG_ok_some_length fetch p u hres)⟩
            have hlen := processProductG_ok_some_length fetch p u hres
            rw [heq] at hlen
            exact absurd hlen (by decide)
  · rw [if_neg hcond] at hj
    rw [List.getElem?_eq_none (by omega)] at hj
    cases hj

/-- Witness for C3 (amended) on a one-record catalog whose fetch fails. -/
theorem run_null_safety_amended_witness :
    (∀ p ∈ [sampleProduct], processProductG (fun _ => none) p ≠ ExtractResult.thrown)
    ∧ ((runExtractPipeline (fun _ => none) [sampleProduct]).1)[0]? = some sampleProduct
    ∧ (sampleProduct.imageUrl = none
        ∨ ∃ s, sampleProduct.imageUrl = some s ∧ s ≠ ""
            ∧ (10 ≤ s.length ∨ [sampleProduct][0]? = some sampleProduct)) := by
  have hok : ∀ p ∈ [sampleProduct], processProductG (fun _ => none) p ≠ ExtractResult.thrown := by
    decide
  have hj : ((runExtractPipeline (fun _ => none) [sampleProduct]).1)[0]? = some sampleProduct := by
    unfold runExtractPipeline
    simp only [mainRun]
    rw [runLoop]
    norm_num
    rw [if_neg (by decide)]
    rw [runLoop]
    norm_num
    rfl
  exact ⟨hok, hj, run_null_safety_amended (fun _ => none) [sampleProduct] 0 sampleProduct hok hj⟩

/-- Document whose only image has a root-relative `src` that passes the
fallback filters. -/
def relDoc : Doc := ⟨fun _ => none, [⟨some "/images/product-photo-001.jpg", none, none, none⟩]⟩

/-- Product without an image, processed by the pipeline. -/
def noImageProduct : Product :=
  ⟨1, "item", none, "$1", none, "https://shop.example.com/item?id=1", none⟩

/-- The claim's notion of an absolute URL (http or https scheme). -/
def isAbsoluteUrl (s : String) : Bool :=
  strStarts s "http://" || strStarts s "https://"

/-- Counterexample to C3 as stated: a full run over this catalog stores
the relative path `/images/product-photo-001.jpg` in `imageUrl` — a
non-null value that is not an absolute URL. -/
theorem null_safety_counterexample :
    (runExtractPipeline (fun _ => some relDoc) [noImageProduct]).1
      = [{ noImageProduct with imageUrl := some "/images/product-photo-001.jpg" }]
    ∧ isAbsoluteUrl "/images/product-photo-001.jpg" = false
    ∧ "/images/product-photo-001.jpg" ≠ "" := by
  refine ⟨?_, by decide, by decide⟩
  unfold runExtractPipeline
  simp only [mainRun]
  rw [runLoop]
  norm_num
  rw [if_neg (by decide)]
  rw [runLoop]
  norm_num
  decide

/-- C6 (amended): a candidate accepted by the selector strategy is
rewritten to `https:`+candidate when protocol-relative and resolved
against the base URL's origin when root-relative; a candidate accepted by
the fallback strategy is rewritten only when protocol-relative — a
root-relative fallback candidate is returned unchanged. -/
theorem url_normalization_amended
    (docP docR : Doc) (base sel : String) (imgP imgR : Img) (cP cR o : String)
    (imgFP imgFR : Img) (restP restR : List Img) (sP sR : String)
    (hP1 : docP.select sel = some imgP) (hP2 : candidateOf imgP = some cP)
    (hP3 : strContains cP "loading" = false) (hP4 : strContains cP "placeholder" = false)
    (hP5 : strContains cP "data:image" = false) (hP6 : 10 ≤ cP.length)
    (hP7 : strStarts cP "//" = true)
    (hR1 : docR.select sel = some imgR) (hR2 : candidateOf imgR = some cR)
    (hR3 : strContains cR "loading" = false) (hR4 : strContains cR "placeholder" = false)
    (hR5 : strContains cR "data:image" = false) (hR6 : 10 ≤ cR.length)
    (hR7 : strStarts cR "//" = false) (hR8 : strStarts cR "/" = true)
    (hO : urlOrigin base = some o)
    (hF1 : jsOrS imgFP.src imgFP.dataSrc = some sP)
    (hF2 : strContains sP "logo" = false) (hF3 : strContains sP "icon" = false)
    (hF4 : strContains sP "avatar" = false) (hF5 : strContains sP "loading" = false)
    (hF6 : strContains sP "placeholder" = false) (hF7 : strStarts sP "data:" = false)
    (hF8 : 20 < sP.length) (hF9 : strStarts sP "//" = true)
    (hG1 : jsOrS imgFR.src imgFR.dataSrc = some sR)
    (hG2 : strContains sR "logo" = false) (hG3 : strContains sR "icon" = false)
    (hG4 : strContains sR "avatar" = false) (hG5 : strContains sR "loading" = false)
    (hG6 : strContains sR "placeholder" = false) (hG7 : strStarts sR "data:" = false)
    (hG8 : 20 < sR.length) (hG9 : strStarts sR "//" = false) :
    selectorStep docP base sel = SelStep.ret ("https:" ++ cP)
    ∧ selectorStep docR base sel = SelStep.ret (o ++ cR)
    ∧ fallbackScan (imgFP :: restP) = some ("https:" ++ sP)
    ∧ fallbackScan (imgFR :: restR) = some sR := by
  refine ⟨?_, ?_, ?_, ?_⟩
  · have hne : (cP == "") = false := by
      rw [beq_eq_false_iff_ne]
      intro heq
      rw [heq] at hP6
      exact absurd hP6 (by decide)
    have hlt : decide (cP.length < 10) = false := decide_eq_false (by omega)
    simp [selectorStep, hP1, hP2, hne, hP3, hP4, hP5, hlt, hP7]
  · have hne : (cR == "") = false := by
      rw [beq_eq_false_iff_ne]
      intro heq
      rw [heq] at hR6
      exact absurd hR6 (by decide)
    have hlt : decide (cR.length < 10) = false := decide_eq_false (by omega)
    simp [selectorStep, hR1, hR2, hne, hR3, hR4, hR5, hlt, hR7, hR8, hO]
  · have hne : (sP == "") = false := by
      rw [beq_eq_false_iff_ne]
      intro heq
      rw [heq] at hF8
      exact absurd hF8 (by decide)
    have hd : decide (20 < sP.length) = true := decide_eq_true hF8
    simp [fallbackScan, hF1, hne, hF2, hF3, hF4, hF5, hF6, hF7, hF9, hd]
  · have hne : (sR == "") = false := by
      rw [beq_eq_false_iff_ne]
      intro heq
      rw [heq] at hG8
      exact absurd hG8 (by decide)
    have hd : decide (20 < sR.length) = true := decide_eq_true hG8
    simp [fallbackScan, hG1, hne, hG2, hG3, hG4, hG5, hG6, hG7, hG9, hd]

/-- Image with a protocol-relative `src`, for the C6 witness. -/
def imgProtocol : Img := ⟨some "//cdn.example.com/img.jpg", none, none, none⟩

/-- Image with a root-relative `src` of length at least 10, for the C6
witness. -/
def imgRoot : Img := ⟨some "/img-0123456789.jpg", none, none, none⟩

/-- Document resolving every selector to `imgProtocol`. -/
def docProtocol : Doc := ⟨fun _ => some imgProtocol, []⟩

/-- Document resolving every selector to `imgRoot`. -/
def docRoot : Doc := ⟨fun _ => some imgRoot, []⟩

/-- Image with a protocol-relative `src` longer than 20 characters, for
the fallback part of the C6 witness. -/
def imgFallP : Img := ⟨some "//cdn.example.com/product-image-0001.jpg", none, none, none⟩

/-- Image with a root-relative `src` longer than 20 characters, for the
fallback part of the C6 witness. -/
def imgFallR : Img := ⟨some "/images/product-photo-002.jpg", none, none, none⟩

/-- Witness for C6 (amended) at concrete candidates, including the
claim's own examples. -/
theorem url_normalization_amended_witness :
    (docProtocol.select ".product-image img" = some imgProtocol
      ∧ candidateOf imgProtocol = some "//cdn.example.com/img.jpg"
      ∧ strStarts "//cdn.example.com/img.jpg" "//" = true
      ∧ docRoot.select ".product-image img" = some imgRoot
      ∧ candidateOf imgRoot = some "/img-0123456789.jpg"
      ∧ strStarts "/img-0123456789.jpg" "/" = true
      ∧ urlOrigin "https://shop.example.com/item?id=1" = some "https://shop.example.com"
      ∧ jsOrS imgFallP.src imgFallP.dataSrc = some "//cdn.example.com/product-image-0001.jpg"
      ∧ jsOrS imgFallR.src imgFallR.dataSrc = some "/images/product-photo-002.jpg")
    ∧ (selectorStep docProtocol "https://shop.example.com/item?id=1" ".product-image img"
        = SelStep.ret ("https:" ++ "//cdn.example.com/img.jpg")
      ∧ selectorStep docRoot "https://shop.example.com/item?id=1" ".product-image img"
        = SelStep.ret ("https://shop.example.com" ++ "/img-0123456789.jpg")
      ∧ fallbackScan [imgFallP] = some ("https:" ++ "//cdn.example.com/product-image-0001.jpg")
      ∧ fallbackScan [imgFallR] = some "/images/product-photo-002.jpg") :=
  ⟨by decide,
    url_normalization_amended docProtocol docRoot "https://shop.example.com/item?id=1"
      ".product-image img" imgProtocol imgRoot "//cdn.example.com/img.jpg"
      "/img-0123456789.jpg" "https://shop.example.com" imgFallP imgFallR [] []
      "//cdn.example.com/product-image-0001.jpg" "/images/product-photo-002.jpg"
      rfl (by decide) (by decide) (by decide) (by decide) (by decide) (by decide)
      rfl (by decide) (by decide) (by decide) (by decide) (by decide) (by decide) (by decide)
      (by decide)
      (by decide) (by decide) (by decide) (by decide) (by decide) (by decide) (by decide)
      (by decide) (by decide)
      (by decide) (by decide) (by decide) (by decide) (by decide) (by decide) (by decide)
      (by decide) (by decide)⟩

/-- Document with no selector matches and a single root-relative fallback
image. -/
def fallbackDoc : Doc := ⟨fun _ => none, [⟨some "/images/product-photo-001.jpg", none, none, none⟩]⟩

/-- Counterexample to C6 as stated: the fallback accepts the root-relative
candidate `/images/product-photo-001.jpg` and returns it unchanged, not
resolved against the base URL's origin as the claim requires. -/
theorem url_normalization_counterexample :
    urlOrigin "https://shop.example.com/item?id=1" = some "https://shop.example.com"
    ∧ extractImageUrl fallbackDoc "https://shop.example.com/item?id=1"
        = ExtractResult.ok (some "/images/product-photo-001.jpg")
    ∧ "/images/product-photo-001.jpg"
        ≠ "https://shop.example.com" ++ "/images/product-photo-001.jpg" := by
  refine ⟨by decide, by decide, by decide⟩

/-! ## Claim theorems: deduplication script -/

/-- The dedupe filter pass with seen-set `seen` equals the keep-first
description applied to the records whose `buyUrl` is unseen. -/
theorem dedupeFilter_eq_keepFirst :
    ∀ (l : List Product) (seen : List String),
      dedupeFilter l seen = keepFirstByBuyUrl (l.filter fun q => !(seen.contains q.buyUrl)) := by
  intro l
  induction l with
  | nil => intro seen; simp [dedupeFilter, keepFirstByBuyUrl]
  | cons p rest ih =>
    intro seen
    by_cases hc : seen.contains p.buyUrl = true
    · simp only [dedupeFilter]
      rw [if_pos hc]
      rw [List.filter_cons_of_neg (by simp only [hc]; decide)]
      exact ih seen
    · simp only [dedupeFilter]
      have hcb : seen.contains p.buyUrl = false := Bool.eq_false_iff.mpr hc
      rw [if_neg hc]
      rw [List.filter_cons_of_pos (by simp only [hcb]; decide)]
      rw [keepFirstByBuyUrl]
      rw [ih (p.buyUrl :: seen)]
      congr 1
      rw [List.filter_filter]
      simp only [List.contains_cons, Bool.not_or]

/-- Renumbering does not change the length. -/
theorem renumberFrom_length : ∀ (n : Nat) (l : List Product),
    (renumberFrom n l).length = l.length := by
  intro n l
  induction l generalizing n with
  | nil => rfl
  | cons p rest ih => simp [renumberFrom, ih]

/-- Renumbering assigns the consecutive ids `n+1, n+2, ...`. -/
theorem renumberFrom_map_id : ∀ (n : Nat) (l : List Product),
    (renumberFrom n l).map Product.id = List.range' (n + 1) l.length := by
  intro n l
  induction l generalizing n with
  | nil => rfl
  | cons p rest ih =>
    simp [renumberFrom, ih, List.range'_succ]

/-- Renumbering leaves `buyUrl` untouched. -/
theorem renumberFrom_map_buyUrl : ∀ (n : Nat) (l : List Product),
    (renumberFrom n l).map Product.buyUrl = l.map Product.buyUrl := by
  intro n l
  induction l generalizing n with
  | nil => rfl
  | cons p rest ih => simp [renumberFrom, ih]

/-- The dedupe filter yields pairwise-distinct `buyUrl`s, none of them
previously seen. -/
theorem dedupeFilter_buyUrl_nodup_aux :
    ∀ (l : List Product) (seen : List String),
      ((dedupeFilter l seen).map Product.buyUrl).Nodup
      ∧ ∀ s_ ∈ (dedupeFilter l seen).map Product.buyUrl, seen.contains s_ = false := by
  intro l
  induction l with
  | nil => intro seen; exact ⟨List.nodup_nil, by simp [dedupeFilter]⟩
  | cons p rest ih =>
    intro seen
    by_cases hc : seen.contains p.buyUrl = true
    · simp only [dedupeFilter]
      rw [if_pos hc]
      exact ih seen
    · have hcb : seen.contains p.buyUrl = false := Bool.eq_false_iff.mpr hc
      simp only [dedupeFilter]
      rw [if_neg hc]
      simp only [List.map_cons]
      constructor
      · refine List.nodup_cons.mpr ⟨?_, (ih (p.buyUrl :: seen)).1⟩
        intro hmem
        have hfree := (ih (p.buyUrl :: seen)).2 _ hmem
        simp [List.contains_cons] at hfree
      · intro s_ hs
        rcases List.mem_cons.mp hs with heq | hmem
        · rw [heq]
          exact hcb
        · have hfree := (ih (p.buyUrl :: seen)).2 _ hmem
          simp only [List.contains_cons, Bool.or_eq_false_iff] at hfree
          exact hfree.2

/-- C8: the dedupe script retains, for each `buyUrl`, exactly the first
record (in original order) having it and drops later ones (its output is
the keep-first selection, renumbered); the surviving records' ids are
dense from 1; and the output's `buyUrl` values are unique. -/
theorem dedupe_first_occurrence_dense_ids (ps : List Product) :
    dedupeProducts ps = renumberFrom 0 (keepFirstByBuyUrl ps)
    ∧ (dedupeProducts ps).map Product.id = List.range' 1 (dedupeProducts ps).length
    ∧ ((dedupeProducts ps).map Product.buyUrl).Nodup := by
  have hkey : dedupeFilter ps [] = keepFirstByBuyUrl ps := by
    have h := dedupeFilter_eq_keepFirst ps []
    simpa using h
  refine ⟨?_, ?_, ?_⟩
  · unfold dedupeProducts
    rw [hkey]
  · unfold dedupeProducts
    rw [renumberFrom_map_id, renumberFrom_length]
  · unfold dedupeProducts
    rw [renumberFrom_map_buyUrl]
    exact (dedupeFilter_buyUrl_nodup_aux ps []).1

/-! ## Claim theorems: Weidian fetcher -/

/-- C9 (amended): for every HTML input whose first `item_head` regex match
captures `https://si.geilicdn.com/abc_750_1.jpg.webp`, the Weidian
extractor returns the cleaned URL `https://si.geilicdn.com/abc_750_1.jpg`
(`.webp` suffix, query parameters and trailing artifacts stripped). -/
theorem weidian_item_head_cleaning (html : String)
    (h : matchItemHead html = some "https://si.geilicdn.com/abc_750_1.jpg.webp") :
    parseWeidianImage html = some "https://si.geilicdn.com/abc_750_1.jpg" := by
  unfold parseWeidianImage
  rw [h]
  show (if isValidProductImage "https://si.geilicdn.com/abc_750_1.jpg.webp" = true then
      some (cleanImageUrl "https://si.geilicdn.com/abc_750_1.jpg.webp")
    else weidianStrategy2 html) = some "https://si.geilicdn.com/abc_750_1.jpg"
  rw [if_pos (by decide : isValidProductImage "https://si.geilicdn.com/abc_750_1.jpg.webp" = true)]
  decide

/-- HTML embedding the claim's `item_head` JSON text, for the C9
witness. -/
def weidianSampleHtml : String :=
  "<script>var d = x;\"item_head\":\"https://si.geilicdn.com/abc_750_1.jpg.webp\",\"imgs\": y</script>"

/-- Witness for C9 (amended) on concrete HTML. -/
theorem weidian_item_head_cleaning_witness :
    matchItemHead weidianSampleHtml = some "https://si.geilicdn.com/abc_750_1.jpg.webp"
    ∧ parseWeidianImage weidianSampleHtml = some "https://si.geilicdn.com/abc_750_1.jpg" :=
  ⟨by decide, weidian_item_head_cleaning weidianSampleHtml (by decide)⟩

/-- HTML containing the claim's `item_head` text preceded by an earlier
`item_head` occurrence with a different URL. -/
def weidianDoubleHtml : String :=
  "a\"item_head\":\"https://si.geilicdn.com/zzz_750_1.jpg\" b \"item_head\":\"https://si.geilicdn.com/abc_750_1.jpg.webp\"c"

/-- Counterexample to C9 as stated: this HTML contains the claim's
embedded JSON text, yet the extractor returns the URL of the earlier
`item_head` match, not the cleaned `abc` URL. -/
theorem weidian_item_head_counterexample :
    strContains weidianDoubleHtml
      "\"item_head\":\"https://si.geilicdn.com/abc_750_1.jpg.webp\"" = true
    ∧ parseWeidianImage weidianDoubleHtml = some "https://si.geilicdn.com/zzz_750_1.jpg"
    ∧ "https://si.geilicdn.com/zzz_750_1.jpg" ≠ "https://si.geilicdn.com/abc_750_1.jpg" := by
  refine ⟨by decide, by decide, by decide⟩

/-- Every entry of the result map after recording a chunk comes from the
prior map or from a pair of the chunk with that exact value. -/
theorem foldl_recordResult_spec :
    ∀ (rs : List (Nat × Option String)) (m : Nat → Option String) (k : Nat) (v : String),
      (rs.foldl recordResult m) k = some v →
      m k = some v ∨ ∃ r ∈ rs, r.1 = k ∧ r.2 = some v := by
  intro rs
  induction rs with
  | nil => intro m k v h; exact Or.inl h
  | cons r rest ih =>
    intro m k v h
    rw [List.foldl_cons] at h
    rcases ih (recordResult m r) k v h with h1 | ⟨r', hr', h2⟩
    · obtain ⟨rk, rv⟩ := r
      cases rv with
      | none =>
        simp only [recordResult] at h1
        exact Or.inl h1
      | some u =>
        simp only [recordResult] at h1
        by_cases hue : (u == "") = true
        · rw [if_pos hue] at h1
          exact Or.inl h1
        · rw [if_neg hue] at h1
          simp only [setResult] at h1
          by_cases hk : k = rk
          · rw [if_pos hk] at h1
            injection h1 with h1
            exact Or.inr ⟨(rk, some u), List.mem_cons_self _ rest, hk.symm, by rw [h1]⟩
          · rw [if_neg hk] at h1
            exact Or.inl h1
    · exact Or.inr ⟨r', List.mem_cons_of_mem r hr', h2⟩

/-- Fuel-indexed invariant of `processBatch`: every stored result comes
from the initial map or from some processed product with that id whose
oracle result is that URL. -/
theorem processBatch_spec_aux (oracle : Product → Option String) (c : Nat) :
    ∀ (n : Nat) (l : List Product), l.length ≤ n →
      ∀ (m : Nat → Option String) (k : Nat) (v : String),
        processBatch oracle c l m k = some v →
        m k = some v ∨ ∃ q ∈ l, q.id = k ∧ oracle q = some v := by
  intro n
  induction n with
  | zero =>
    intro l hl m k v h
    have hnil : l = [] := List.eq_nil_of_length_eq_zero (by omega)
    subst hnil
    unfold processBatch at h
    exact Or.inl h
  | succ n ih =>
    intro l hl m k v h
    cases l with
    | nil =>
      unfold processBatch at h
      exact Or.inl h
    | cons p rest =>
      unfold processBatch at h
      by_cases hc0 : c = 0
      · rw [if_pos hc0] at h
        exact Or.inl h
      · rw [if_neg hc0] at h
        have hlen : ((p :: rest).drop c).length ≤ n := by
          simp only [List.length_drop, List.length_cons] at *
          omega
        rcases ih ((p :: rest).drop c) hlen _ k v h with h1 | ⟨q, hq, h2⟩
        · rcases foldl_recordResult_spec _ _ _ _ h1 with h2 | ⟨r, hr, h3, h4⟩
          · exact Or.inl h2
          · rcases List.mem_map.mp hr with ⟨q, hqchunk, hqr⟩
            right
            refine ⟨q, List.mem_of_mem_take hqchunk, ?_, ?_⟩
            · rw [← hqr] at h3
              exact h3
            · rw [← hqr] at h4
              exact h4
        · exact Or.inr ⟨q, List.mem_of_mem_drop hq, h2⟩

/-- Every stored result of `processBatch` comes from the initial map or
from some processed product with that id. -/
theorem processBatch_spec (oracle : Product → Option String) (c : Nat) (l : List Product)
    (m : Nat → Option String) (k : Nat) (v : String)
    (h : processBatch oracle c l m k = some v) :
    m k = some v ∨ ∃ q ∈ l, q.id = k ∧ oracle q = some v :=
  processBatch_spec_aux oracle c l.length l (Nat.le_refl _) m k v h

/-- C10: in the Weidian pipeline (with unique product ids, as the catalog
invariant guarantees), a product whose per-product processing returns null
(fetch or extraction failed) is never modified: the final catalog keeps
its record, placeholder `imageUrl` included, unchanged. -/
theorem weidian_failure_keeps_imageUrl (oracle : Product → Option String)
    (startIndex : Nat) (endIndex : Option Nat) (ps : List Product) (j : Nat) (p : Product)
    (hnodup : (ps.map Product.id).Nodup)
    (hj : ps[j]? = some p) (hfail : oracle p = none) :
    (weidianMain oracle startIndex endIndex ps)[j]? = some p := by
  unfold weidianMain updateProducts
  rw [List.getElem?_map, hj]
  simp only [Option.map_some']
  have hres : processBatch oracle 5 (sliceJs (ps.filter needsImage) startIndex endIndex)
      (fun _ => none) p.id = none := by
    cases hr : processBatch oracle 5 (sliceJs (ps.filter needsImage) startIndex endIndex)
        (fun _ => none) p.id with
    | none => rfl
    | some v =>
      exfalso
      rcases processBatch_spec oracle 5 _ _ _ _ hr with h1 | ⟨q, hq, hid, hor⟩
      · cases h1
      · have hqps : q ∈ ps := by
          have h2 : q ∈ ps.filter needsImage := by
            unfold sliceJs at hq
            cases endIndex with
            | none => exact List.mem_of_mem_drop hq
            | some e => exact List.mem_of_mem_take (List.mem_of_mem_drop hq)
          exact (List.mem_filter.mp h2).1
        have hpps : p ∈ ps := List.getElem?_mem hj
        have hqp : q = p := List.inj_on_of_nodup_map hnodup hqps hpps hid
        rw [hqp, hfail] at hor
        cases hor
  rw [hres]

/-- Product still carrying the placeholder path, for the C10 witness. -/
def placeholderProduct : Product :=
  ⟨7, "weidian item", none, "$7", none, "https://mulebuy.com/item?id=9",
    some "/images/placeholder-item.png"⟩

/-- Witness for C10 on a one-record catalog whose processing fails. -/
theorem weidian_failure_keeps_imageUrl_witness :
    ([placeholderProduct].map Product.id).Nodup
    ∧ [placeholderProduct][0]? = some placeholderProduct
    ∧ (fun _ => (none : Option String)) placeholderProduct = none
    ∧ (weidianMain (fun _ => none) 0 none [placeholderProduct])[0]? = some placeholderProduct :=
  ⟨by simp, rfl, rfl,
    weidian_failure_keeps_imageUrl (fun _ => none) 0 none [placeholderProduct] 0
      placeholderProduct (by simp) rfl rfl⟩
